import Mathlib

/-
  Verification development for the secure blob storage layer of the
  device-onboarding client SDK (src/storage/linux/storage_if_linux.c).

  The storage functions `sdoBlobSize`, `sdoBlobRead` and `sdoBlobWrite` are
  embedded shallowly: the filesystem is an association list from blob names
  (opaque identifiers, modelled as `Nat`) to byte lists, machine bytes are
  `Nat` values reduced `% 256` where the C code stores them in `uint8_t`
  cells, and the `int32_t` return values are modelled as `Int` with the
  C truncating cast made explicit.

  Primitives that the storage file calls but whose code lives outside the
  storage layer (crypto HAL, platform utilities, file helpers) are modelled
  from the specification's contract for them; each such definition carries a
  doc comment starting with `Modelled from the spec:`.
-/

/-! ## Fixed size constants (values documented in the source comments:
  HMAC 32 bytes, length prefix 4 bytes, IV 12 bytes, GCM tag 16 bytes). -/

def PLATFORM_HMAC_SIZE : Nat := 32

def BLOB_CONTENT_SIZE : Nat := 4

def PLATFORM_IV_DEFAULT_LEN : Nat := 12

def PLATFORM_GCM_TAG_SIZE : Nat := 16

def AES_GCM_TAG_LEN : Nat := 16

def PLATFORM_AES_KEY_DEFAULT_LEN : Nat := 16

/-- Modelled from the spec: `MAX_BLOB_BYTES` is "a build-time constant in the
source (`R_MAX_SIZE`); it is not exposed".  The concrete value is irrelevant
to every claim; a fixed representative value is used. -/
def R_MAX_SIZE : Nat := 8192

/-! ## Byte-layout helpers (the length prefix is stored big-endian by the
  source's explicit shift-and-mask code at lines 390-393 and 465-468). -/

/-- Big-endian 4-byte encoding of a length, as built byte-by-byte by
`writeContext[datLen_offst + i] = nBytes >> (8*(3-i))` stored into
`uint8_t` cells. -/
def be32 (n : Nat) : List Nat :=
  [n / 2 ^ 24 % 256, n / 2 ^ 16 % 256, n / 2 ^ 8 % 256, n % 256]

/-- Big-endian 4-byte decoding, as computed by the source's
`dataLength |= b[k] << 24; ...` sequence on `uint8_t` cells. -/
def decodeBe32 (l : List Nat) : Nat :=
  (l.getD 0 0 % 256) * 2 ^ 24 + (l.getD 1 0 % 256) * 2 ^ 16 +
    (l.getD 2 0 % 256) * 2 ^ 8 + l.getD 3 0 % 256

/-- Big-endian 12-byte encoding of a 96-bit nonce value, the byte form in
which a nonce is stored in the platform IV slot and in a sealed frame. -/
def be96 (n : Nat) : List Nat :=
  [n / 2 ^ 88 % 256, n / 2 ^ 80 % 256, n / 2 ^ 72 % 256, n / 2 ^ 64 % 256,
   n / 2 ^ 56 % 256, n / 2 ^ 48 % 256, n / 2 ^ 40 % 256, n / 2 ^ 32 % 256,
   n / 2 ^ 24 % 256, n / 2 ^ 16 % 256, n / 2 ^ 8 % 256, n % 256]

/-- The C `(int32_t)` cast applied to an unsigned 64-bit value: keep the low
32 bits, interpreted as a two's-complement signed integer. -/
def toInt32 (x : Nat) : Int :=
  if x % 2 ^ 32 < 2 ^ 31 then Int.ofNat (x % 2 ^ 32)
  else Int.ofNat (x % 2 ^ 32) - 2 ^ 32

/-! ## Crypto primitives.

  These are bindings into the crypto HAL, which is not part of the storage
  layer.  They are modelled from the spec's contract surface (§4.4):
  deterministic functions of their inputs with the stated output lengths,
  length-preserving GCM encryption, and tag-checking decryption that
  delivers no bytes on failure.  The concrete byte arithmetic below is an
  arbitrary executable instance of that contract. -/

/-- Modelled from the spec: `hmac_sha256(key, msg) → 32 bytes -
deterministic; no hidden state`.  The platform HMAC key is device-resident
inside the HAL, so the binding takes only the message. -/
def sdoComputeStorageHMAC (msg : List Nat) : List Nat :=
  (List.range PLATFORM_HMAC_SIZE).map
    (fun i => msg.foldl (fun a b => (a * 131 + b % 256 + 7) % 256) ((i * 59 + 11) % 256))

/-- Modelled from the spec: `get_sealing_key() → key`, the device-bound
AES sealing key provided by the Platform Secret Store (the available case;
`KeyUnavailable` refusal is not modelled). -/
def platformAESKey : List Nat := List.replicate PLATFORM_AES_KEY_DEFAULT_LEN 7

/-- Keystream byte of the modelled AES-GCM counter-mode cipher: an arbitrary
deterministic byte derived from key and nonce. -/
def gcmPad (key iv : List Nat) : Nat :=
  ((key ++ iv).foldl (fun a b => a * 37 + b + 5) 1) % 256

/-- Ciphertext bytes of the modelled AES-GCM: length-preserving
(`|ciphertext| = |plaintext|`, spec §4.4). -/
def aesGcmEncBytes (key iv pt : List Nat) : List Nat :=
  pt.map (fun b => (b % 256 + gcmPad key iv) % 256)

/-- Plaintext bytes recovered by the modelled AES-GCM decryption. -/
def aesGcmDecBytes (key iv ct : List Nat) : List Nat :=
  ct.map (fun b => (b % 256 + 256 - gcmPad key iv) % 256)

/-- Modelled from the spec: the 16-byte GCM authentication tag, a
deterministic function of key, nonce, associated data and ciphertext.  The
associated-data argument is kept explicit so that the storage layer's empty
associated data is visible in the statements. -/
def gcmTag (key iv aad ct : List Nat) : List Nat :=
  (List.range PLATFORM_GCM_TAG_SIZE).map
    (fun i => ((key ++ iv ++ aad ++ ct).foldl (fun a b => a * 101 + b + 13) (i + 3)) % 256)

/-- Modelled from the spec: `aes_gcm_encrypt(key, nonce, plaintext) →
(ciphertext, tag)`.  The HAL binding `sdoCryptoAESGcmEncrypt` has no
associated-data parameter; the tag is computed with empty associated data. -/
def sdoCryptoAESGcmEncrypt (key iv pt : List Nat) : List Nat × List Nat :=
  (aesGcmEncBytes key iv pt, gcmTag key iv [] (aesGcmEncBytes key iv pt))

/-- Modelled from the spec: `aes_gcm_decrypt(key, nonce, ciphertext, tag) →
plaintext or AuthFail - on failure returns no bytes`.  On success the
plaintext overwrites the first `|ciphertext|` bytes of the caller's buffer;
on tag mismatch the buffer is returned unchanged (`none`). -/
def sdoCryptoAESGcmDecrypt (buf ct iv key tag : List Nat) : Option (List Nat) :=
  if tag = gcmTag key iv [] ct then
    some (aesGcmDecBytes key iv ct ++ buf.drop ct.length)
  else none

/-! ## Filesystem model.

  The filesystem is an association list from blob names to byte lists;
  `fsSet` models `fopen(name, "w")` + full `fwrite` (create or truncate,
  then replace the contents). -/

def fsGet (fs : List (Nat × List Nat)) (name : Nat) : Option (List Nat) :=
  match fs with
  | [] => none
  | (n, v) :: rest => if n = name then some v else fsGet rest name

def fsSet (fs : List (Nat × List Nat)) (name : Nat) (v : List Nat) :
    List (Nat × List Nat) :=
  (name, v) :: fs

def file_exists (fs : List (Nat × List Nat)) (name : Nat) : Bool :=
  (fsGet fs name).isSome

def get_file_size (fs : List (Nat × List Nat)) (name : Nat) : Nat :=
  ((fsGet fs name).getD []).length

/-- Modelled from the spec: the file-read primitive used by every read path.
Spec §4.3 reads "file bytes directly into `out_buf`" and its scenarios read a
short file into a larger buffer, so the primitive copies
`min(requested, file size)` bytes into the front of the caller's buffer and
succeeds whenever the file exists; the remainder of the buffer is left as it
was. -/
def read_buffer_from_file (fs : List (Nat × List Nat)) (name : Nat)
    (buf : List Nat) (size : Nat) : Option (List Nat) :=
  match fsGet fs name with
  | none => none
  | some content =>
      some (content.take (min size content.length) ++
            buf.drop (min size content.length))

/-! ## Nonce manager.

  `getPlatformIV` lives in the platform utilities, outside the storage
  layer; only its call site and the algorithm comment at the top of
  `storage_if_linux.c` are in the sources.  It is modelled from the spec's
  nonce-manager state machine (§4.2): a slot that is empty until the first
  sealed write, then holds `(base, counter)`, advances by 1 block-step
  (or 2 for huge payloads), and latches into a terminal exhausted state
  when an advance would come back to or pass the base value. -/

inductive SlotState where
  | unset
  | active (base counter : Nat)
  | exhausted
deriving DecidableEq

/-- Modelled from the spec: the per-write counter step - `blocks =
ceil(payload_len / 16)`; step 1 if `blocks < 2^32`, else 2. -/
def ivStep (datLen : Nat) : Nat :=
  if (datLen + 15) / 16 < 2 ^ 32 then 1 else 2

/-- Modelled from the spec: `getPlatformIV` draws the next sealed-mode
nonce.  First use draws a fresh base value (the caller supplies the entropy
`rnd`), stores it in both halves of the slot and emits it; later uses
advance the counter by `ivStep` modulo `2^96`, fail permanently once the
advance would traverse back to or through the base value, and otherwise
persist the new counter and emit it.  The updated slot is returned in either
case (the exhausted latch survives). -/
def getPlatformIV (slot : SlotState) (rnd : Nat) (datLen : Nat) :
    Option Nat × SlotState :=
  match slot with
  | .unset =>
      (some (rnd % 2 ^ 96), .active (rnd % 2 ^ 96) (rnd % 2 ^ 96))
  | .active base counter =>
      let s := ivStep datLen
      let d := (counter + 2 ^ 96 - base % 2 ^ 96) % 2 ^ 96
      if 2 ^ 96 ≤ d + s then (none, .exhausted)
      else (some ((counter + s) % 2 ^ 96), .active base ((counter + s) % 2 ^ 96))
  | .exhausted => (none, .exhausted)

/-- The sequence of nonces emitted by a run of successful sealed writes with
the given payload lengths, starting from a given slot state; `none` when any
write in the sequence fails to obtain a nonce. -/
def runSealedNonces (slot : SlotState) (rnd : Nat) (lens : List Nat) :
    Option (List Nat) :=
  match lens with
  | [] => some []
  | n :: rest =>
      match getPlatformIV slot rnd n with
      | (some iv, slot') =>
          match runSealedNonces slot' rnd rest with
          | some ns => some (iv :: ns)
          | none => none
      | (none, _) => none

/-! ## The blob store. -/

inductive sdoSdkBlobFlags where
  | raw
  | normal
  | secure
deriving DecidableEq

structure SysState where
  fs : List (Nat × List Nat)
  slot : SlotState
deriving DecidableEq

/-- Fixed per-mode frame overhead subtracted by `sdoBlobSize`:
0 for raw, `32 + 4` for normal, `16 + 12 + 4` for secure. -/
def sizeOverhead : sdoSdkBlobFlags → Nat
  | .raw => 0
  | .normal => PLATFORM_HMAC_SIZE + BLOB_CONTENT_SIZE
  | .secure => PLATFORM_GCM_TAG_SIZE + PLATFORM_IV_DEFAULT_LEN + BLOB_CONTENT_SIZE

/-- Embedding of `sdoBlobSize` (storage_if_linux.c lines 58-104): `0` for an
absent file, otherwise the file size minus the mode's fixed overhead,
computed in `size_t` arithmetic and truncated by the `(int32_t)` cast; any
result above `R_MAX_SIZE` is turned into `-1` at the `end` label. -/
def sdoBlobSize (st : SysState) (name : Nat) (flags : sdoSdkBlobFlags) : Int :=
  let retval : Int :=
    if file_exists st.fs name = false then 0
    else toInt32 ((get_file_size st.fs name + 2 ^ 64 - sizeOverhead flags) % 2 ^ 64)
  if (R_MAX_SIZE : Int) < retval then -1 else retval

/-- Result of `sdoBlobRead`: the `int32_t` return value, the caller's buffer
after the call, and the contents of the local `aes_key` buffer at function
return (for the key-hygiene claims). -/
structure ReadOut where
  retval : Int
  buf : List Nat
  key : List Nat
deriving DecidableEq

/-- The shared `exit:` label of `sdoBlobRead` (lines 303-312): every path
leaves through it and it wipes the local AES key with `memset_s`. -/
def readExit (r : Int) (buf : List Nat) : ReadOut :=
  { retval := r, buf := buf, key := List.replicate PLATFORM_AES_KEY_DEFAULT_LEN 0 }

/-- Embedding of `sdoBlobRead` (storage_if_linux.c lines 117-313).
`buf` is the caller's buffer, `nBytes` its declared length.  The raw path
reads the file straight into the buffer; the normal path reads a
`32 + 4 + nBytes` frame into a zeroed heap buffer, parses the big-endian
length, rejects a too-small buffer, compares the stored against the
recomputed HMAC and copies the payload only on a match; the secure path
reads a `12 + 16 + 4 + nBytes` frame, parses nonce, tag and length, and
decrypts through the GCM binding.  On success the function returns `nBytes`
(line 301); every path exits through `readExit`. -/
def sdoBlobRead (st : SysState) (name : Nat) (flags : sdoSdkBlobFlags)
    (buf : List Nat) (nBytes : Nat) : ReadOut :=
  if nBytes = 0 then readExit (-1) buf
  else if R_MAX_SIZE < nBytes then readExit (-1) buf
  else
    match flags with
    | .raw =>
        match read_buffer_from_file st.fs name buf nBytes with
        | none => readExit (-1) buf
        | some buf' => readExit (Int.ofNat nBytes) buf'
    | .normal =>
        let sealedDataLen := PLATFORM_HMAC_SIZE + BLOB_CONTENT_SIZE + nBytes
        match read_buffer_from_file st.fs name (List.replicate sealedDataLen 0)
            sealedDataLen with
        | none => readExit (-1) buf
        | some sealedData =>
            let dataLength := decodeBe32 (sealedData.drop PLATFORM_HMAC_SIZE)
            if nBytes < dataLength then readExit (-1) buf
            else
              let storedHmac := sealedData.take PLATFORM_HMAC_SIZE
              let data := (sealedData.drop (PLATFORM_HMAC_SIZE + BLOB_CONTENT_SIZE)).take
                dataLength
              if storedHmac = sdoComputeStorageHMAC data then
                readExit (Int.ofNat nBytes) (data ++ buf.drop dataLength)
              else readExit (-1) buf
    | .secure =>
        let encryptedDataLen := PLATFORM_IV_DEFAULT_LEN + PLATFORM_GCM_TAG_SIZE +
          BLOB_CONTENT_SIZE + nBytes
        match read_buffer_from_file st.fs name (List.replicate encryptedDataLen 0)
            encryptedDataLen with
        | none => readExit (-1) buf
        | some encryptedData =>
            let datLenOffst := PLATFORM_GCM_TAG_SIZE + PLATFORM_IV_DEFAULT_LEN
            let dataLength := decodeBe32 (encryptedData.drop datLenOffst)
            if nBytes < dataLength then readExit (-1) buf
            else
              let iv := encryptedData.take PLATFORM_IV_DEFAULT_LEN
              let storedTag := (encryptedData.drop PLATFORM_IV_DEFAULT_LEN).take
                PLATFORM_GCM_TAG_SIZE
              let data := (encryptedData.drop (PLATFORM_IV_DEFAULT_LEN +
                PLATFORM_GCM_TAG_SIZE + BLOB_CONTENT_SIZE)).take dataLength
              match sdoCryptoAESGcmDecrypt buf data iv platformAESKey storedTag with
              | some buf' => readExit (Int.ofNat nBytes) buf'
              | none => readExit (-1) buf

/-- Events observable in the order `sdoBlobWrite` performs its durable
effects: the nonce-slot update persisted inside `getPlatformIV`, and the
frame-file write. -/
inductive Ev where
  | slotPersist
  | frameWrite (name : Nat)
deriving DecidableEq

/-- Result of `sdoBlobWrite`: the `int32_t` return value, the system state
after the call, the ordered list of durable effects, and the contents of
the local `aes_key` buffer at function return. -/
structure WriteOut where
  retval : Int
  st : SysState
  events : List Ev
  key : List Nat
deriving DecidableEq

/-- The shared `exit:` label of `sdoBlobWrite` (lines 491-501): every path
leaves through it and it wipes the local AES key with `memset_s`. -/
def writeExit (r : Int) (st : SysState) (evs : List Ev) : WriteOut :=
  { retval := r, st := st, events := evs,
    key := List.replicate PLATFORM_AES_KEY_DEFAULT_LEN 0 }

/-- Embedding of `sdoBlobWrite` (storage_if_linux.c lines 327-502).
`buf` is the caller's data, `nBytes` the number of bytes to store, `rnd` the
entropy consumed if this is the device's first sealed write.  The frame is
assembled in memory per mode (raw: the payload; normal: HMAC over the
payload, then the big-endian length, then the payload; secure: nonce from
`getPlatformIV`, GCM tag, big-endian length, ciphertext) and then written to
the file; on success the function returns `nBytes`.  In the secure mode the
nonce slot is advanced and persisted by `getPlatformIV` (line 423) before
the frame file is opened and written (lines 476-487). -/
def sdoBlobWrite (st : SysState) (name : Nat) (flags : sdoSdkBlobFlags)
    (buf : List Nat) (nBytes : Nat) (rnd : Nat) : WriteOut :=
  if nBytes = 0 then writeExit (-1) st []
  else if R_MAX_SIZE < nBytes then writeExit (-1) st []
  else
    match flags with
    | .raw =>
        writeExit (Int.ofNat nBytes) ⟨fsSet st.fs name (buf.take nBytes), st.slot⟩
          [.frameWrite name]
    | .normal =>
        let writeContext := sdoComputeStorageHMAC (buf.take nBytes) ++ be32 nBytes ++
          buf.take nBytes
        writeExit (Int.ofNat nBytes) ⟨fsSet st.fs name writeContext, st.slot⟩
          [.frameWrite name]
    | .secure =>
        match getPlatformIV st.slot rnd nBytes with
        | (none, slot') => writeExit (-1) ⟨st.fs, slot'⟩ []
        | (some ivN, slot') =>
            let iv := be96 ivN
            let ct := (sdoCryptoAESGcmEncrypt platformAESKey iv (buf.take nBytes)).1
            let tag := (sdoCryptoAESGcmEncrypt platformAESKey iv (buf.take nBytes)).2
            let writeContext := iv ++ tag ++ be32 nBytes ++ ct
            writeExit (Int.ofNat nBytes) ⟨fsSet st.fs name writeContext, slot'⟩
              [.slotPersist, .frameWrite name]

/-! ## Basic lemmas about the modelled primitives. -/

theorem sdoComputeStorageHMAC_length (msg : List Nat) :
    (sdoComputeStorageHMAC msg).length = PLATFORM_HMAC_SIZE := by
  simp [sdoComputeStorageHMAC]

theorem gcmTag_length (key iv aad ct : List Nat) :
    (gcmTag key iv aad ct).length = PLATFORM_GCM_TAG_SIZE := by
  simp [gcmTag]

theorem aesGcmEncBytes_length (key iv pt : List Nat) :
    (aesGcmEncBytes key iv pt).length = pt.length := by
  simp [aesGcmEncBytes]

theorem be96_length (n : Nat) : (be96 n).length = PLATFORM_IV_DEFAULT_LEN := by
  simp [be96, PLATFORM_IV_DEFAULT_LEN]

theorem be32_length (n : Nat) : (be32 n).length = BLOB_CONTENT_SIZE := by
  simp [be32, BLOB_CONTENT_SIZE]

theorem gcmPad_lt (key iv : List Nat) : gcmPad key iv < 256 := by
  unfold gcmPad
  exact Nat.mod_lt _ (by norm_num)

theorem aesGcmDec_enc (key iv pt : List Nat) (h : ∀ b ∈ pt, b < 256) :
    aesGcmDecBytes key iv (aesGcmEncBytes key iv pt) = pt := by
  induction pt with
  | nil => rfl
  | cons a t ih =>
      have ha : a < 256 := h a (List.mem_cons_self a t)
      have ht : ∀ b ∈ t, b < 256 := fun b hb => h b (List.mem_cons_of_mem _ hb)
      have hp : gcmPad key iv < 256 := gcmPad_lt key iv
      simp only [aesGcmEncBytes, aesGcmDecBytes, List.map_cons] at ih ⊢
      rw [ih ht]
      have h1 : ((a % 256 + gcmPad key iv) % 256 % 256 + 256 - gcmPad key iv) % 256 = a := by
        omega
      rw [h1]

theorem decodeBe32_be32_append (n : Nat) (rest : List Nat) (h : n < 2 ^ 32) :
    decodeBe32 (be32 n ++ rest) = n := by
  simp only [be32, decodeBe32, List.cons_append, List.nil_append, List.getD_cons_zero,
    List.getD_cons_succ]
  omega

theorem fsGet_fsSet (fs : List (Nat × List Nat)) (name : Nat) (v : List Nat) :
    fsGet (fsSet fs name v) name = some v := by
  simp [fsGet, fsSet]

theorem read_isExit (st : SysState) (name : Nat) (flags : sdoSdkBlobFlags)
    (buf : List Nat) (nBytes : Nat) :
    ∃ r b, sdoBlobRead st name flags buf nBytes = readExit r b := by
  unfold sdoBlobRead
  repeat' first
    | exact ⟨_, _, rfl⟩
    | split
    | dsimp only

theorem write_isExit (st : SysState) (name : Nat) (flags : sdoSdkBlobFlags)
    (buf : List Nat) (nBytes rnd : Nat) :
    ∃ r st' evs, sdoBlobWrite st name flags buf nBytes rnd = writeExit r st' evs := by
  unfold sdoBlobWrite
  repeat' split <;> try exact ⟨_, _, _, rfl⟩

/-- Claim C9: on every exit path of `sdoBlobRead` and `sdoBlobWrite` -
success, error or early return - the local AES sealing-key buffer is
zeroized before the function returns: both functions leave through the
shared `exit:` label, which wipes `aes_key` with `memset_s`. -/
theorem c9_key_zeroized_on_every_exit (st : SysState) (name : Nat)
    (flags : sdoSdkBlobFlags) (bufR : List Nat) (n : Nat) (bufW : List Nat)
    (m rnd : Nat) :
    (sdoBlobRead st name flags bufR n).key =
      List.replicate PLATFORM_AES_KEY_DEFAULT_LEN 0 ∧
    (sdoBlobWrite st name flags bufW m rnd).key =
      List.replicate PLATFORM_AES_KEY_DEFAULT_LEN 0 := by
  constructor
  · obtain ⟨r, b, h⟩ := read_isExit st name flags bufR n
    rw [h]; rfl
  · obtain ⟨r, st', evs, h⟩ := write_isExit st name flags bufW m rnd
    rw [h]; rfl

/-- Claim C10: a read whose requested buffer length `nBytes` exceeds
`R_MAX_SIZE` fails with `-1` in every mode and every state - the buffer
length itself is capped (lines 140-144), independently of the stored
payload's size. -/
theorem c10_read_buffer_length_capped (st : SysState) (name : Nat)
    (flags : sdoSdkBlobFlags) (buf : List Nat) (nBytes : Nat)
    (h : R_MAX_SIZE < nBytes) :
    (sdoBlobRead st name flags buf nBytes).retval = -1 := by
  have hn : ¬ nBytes = 0 := by
    intro h0
    rw [h0] at h
    exact absurd h (by norm_num [R_MAX_SIZE])
  unfold sdoBlobRead
  simp [hn, h, readExit]

theorem c10_read_buffer_length_capped_witness :
    R_MAX_SIZE < 9000 ∧
    (sdoBlobRead ⟨[(1, [1, 2, 3])], .unset⟩ 1 .normal [] 9000).retval = -1 :=
  ⟨by norm_num [R_MAX_SIZE],
   c10_read_buffer_length_capped ⟨[(1, [1, 2, 3])], .unset⟩ 1 .normal [] 9000
     (by norm_num [R_MAX_SIZE])⟩

/-- Claim C7: in every successful sealed write, the nonce-slot update
persisted inside `getPlatformIV` (line 423) happens strictly before the
frame file is opened and written (lines 476-487): the event trace contains
the slot persist at an earlier position than the frame write.  The
persistence inside `getPlatformIV` is modelled from the spec ("update slot →
fsync slot → write frame → fsync frame"); the ordering of the two calls is
the source's. -/
theorem c7_slot_persisted_before_frame_write (st : SysState) (name : Nat)
    (buf : List Nat) (nBytes rnd : Nat)
    (h : 0 ≤ (sdoBlobWrite st name .secure buf nBytes rnd).retval) :
    ∃ i j, i < j ∧
      (sdoBlobWrite st name .secure buf nBytes rnd).events.get? i =
        some Ev.slotPersist ∧
      (sdoBlobWrite st name .secure buf nBytes rnd).events.get? j =
        some (Ev.frameWrite name) := by
  unfold sdoBlobWrite at h ⊢
  by_cases h0 : nBytes = 0
  · simp only [h0, if_pos rfl] at h
    simp [writeExit] at h
  · simp only [if_neg h0] at h ⊢
    by_cases hmax : R_MAX_SIZE < nBytes
    · simp only [if_pos hmax] at h
      simp [writeExit] at h
    · simp only [if_neg hmax] at h ⊢
      rcases hiv : getPlatformIV st.slot rnd nBytes with ⟨o, slot'⟩
      cases o with
      | none =>
          rw [hiv] at h
          simp [writeExit] at h
      | some ivN =>
          exact ⟨0, 1, by omega, rfl, rfl⟩

/-! ## Evaluation lemmas: write shapes and read paths. -/

theorem write_success_bounds (st : SysState) (name : Nat) (flags : sdoSdkBlobFlags)
    (buf : List Nat) (nBytes rnd : Nat)
    (h : 0 ≤ (sdoBlobWrite st name flags buf nBytes rnd).retval) :
    nBytes ≠ 0 ∧ nBytes ≤ R_MAX_SIZE := by
  unfold sdoBlobWrite at h
  by_cases h0 : nBytes = 0
  · rw [if_pos h0] at h
    simp [writeExit] at h
  · rw [if_neg h0] at h
    by_cases hmax : R_MAX_SIZE < nBytes
    · rw [if_pos hmax] at h
      simp [writeExit] at h
    · exact ⟨h0, by omega⟩

theorem write_raw_eq (st : SysState) (name : Nat) (buf : List Nat) (nBytes rnd : Nat)
    (h0 : nBytes ≠ 0) (hmax : nBytes ≤ R_MAX_SIZE) :
    sdoBlobWrite st name .raw buf nBytes rnd =
      writeExit (Int.ofNat nBytes) ⟨fsSet st.fs name (buf.take nBytes), st.slot⟩
        [.frameWrite name] := by
  unfold sdoBlobWrite
  rw [if_neg h0, if_neg (by omega : ¬ R_MAX_SIZE < nBytes)]

theorem write_normal_eq (st : SysState) (name : Nat) (buf : List Nat) (nBytes rnd : Nat)
    (h0 : nBytes ≠ 0) (hmax : nBytes ≤ R_MAX_SIZE) :
    sdoBlobWrite st name .normal buf nBytes rnd =
      writeExit (Int.ofNat nBytes)
        ⟨fsSet st.fs name
          (sdoComputeStorageHMAC (buf.take nBytes) ++ be32 nBytes ++ buf.take nBytes),
         st.slot⟩
        [.frameWrite name] := by
  unfold sdoBlobWrite
  rw [if_neg h0, if_neg (by omega : ¬ R_MAX_SIZE < nBytes)]

theorem write_secure_eq (st : SysState) (name : Nat) (buf : List Nat)
    (nBytes rnd ivN : Nat) (slot' : SlotState)
    (h0 : nBytes ≠ 0) (hmax : nBytes ≤ R_MAX_SIZE)
    (hiv : getPlatformIV st.slot rnd nBytes = (some ivN, slot')) :
    sdoBlobWrite st name .secure buf nBytes rnd =
      writeExit (Int.ofNat nBytes)
        ⟨fsSet st.fs name
          (be96 ivN ++
           gcmTag platformAESKey (be96 ivN) []
             (aesGcmEncBytes platformAESKey (be96 ivN) (buf.take nBytes)) ++
           be32 nBytes ++
           aesGcmEncBytes platformAESKey (be96 ivN) (buf.take nBytes)),
         slot'⟩
        [.slotPersist, .frameWrite name] := by
  unfold sdoBlobWrite
  rw [if_neg h0, if_neg (by omega : ¬ R_MAX_SIZE < nBytes)]
  dsimp only
  rw [hiv]
  rfl

theorem write_secure_fail_eq (st : SysState) (name : Nat) (buf : List Nat)
    (nBytes rnd : Nat) (slot' : SlotState)
    (h0 : nBytes ≠ 0) (hmax : nBytes ≤ R_MAX_SIZE)
    (hiv : getPlatformIV st.slot rnd nBytes = (none, slot')) :
    sdoBlobWrite st name .secure buf nBytes rnd = writeExit (-1) ⟨st.fs, slot'⟩ [] := by
  unfold sdoBlobWrite
  rw [if_neg h0, if_neg (by omega : ¬ R_MAX_SIZE < nBytes)]
  dsimp only
  rw [hiv]

theorem read_raw_eq (fs : List (Nat × List Nat)) (slot : SlotState) (name : Nat)
    (content buf : List Nat) (nBytes : Nat)
    (hfile : fsGet fs name = some content)
    (h0 : nBytes ≠ 0) (hmax : nBytes ≤ R_MAX_SIZE) :
    sdoBlobRead ⟨fs, slot⟩ name .raw buf nBytes =
      readExit (Int.ofNat nBytes)
        (content.take (min nBytes content.length) ++
         buf.drop (min nBytes content.length)) := by
  unfold sdoBlobRead read_buffer_from_file
  rw [if_neg h0, if_neg (by omega : ¬ R_MAX_SIZE < nBytes)]
  dsimp only
  rw [hfile]

theorem read_normal_eq (fs : List (Nat × List Nat)) (slot : SlotState) (name : Nat)
    (mac payload buf : List Nat) (L nBytes : Nat)
    (hfile : fsGet fs name = some (mac ++ (be32 L ++ payload)))
    (hmac : mac.length = PLATFORM_HMAC_SIZE) (hpay : payload.length = L)
    (hL : L ≤ nBytes) (h0 : nBytes ≠ 0) (hmax : nBytes ≤ R_MAX_SIZE) :
    sdoBlobRead ⟨fs, slot⟩ name .normal buf nBytes =
      if mac = sdoComputeStorageHMAC payload
      then readExit (Int.ofNat nBytes) (payload ++ buf.drop L)
      else readExit (-1) buf := by
  have hL32 : L < 2 ^ 32 := by
    have : R_MAX_SIZE = 8192 := rfl
    omega
  have hflen : (mac ++ (be32 L ++ payload)).length =
      PLATFORM_HMAC_SIZE + BLOB_CONTENT_SIZE + L := by
    simp only [List.length_append, hmac, hpay, be32_length]
    omega
  have hrb : read_buffer_from_file fs name
      (List.replicate (PLATFORM_HMAC_SIZE + BLOB_CONTENT_SIZE + nBytes) 0)
      (PLATFORM_HMAC_SIZE + BLOB_CONTENT_SIZE + nBytes) =
      some (mac ++ (be32 L ++ (payload ++ List.replicate (nBytes - L) 0))) := by
    unfold read_buffer_from_file
    rw [hfile]
    dsimp only
    have hmin : min (PLATFORM_HMAC_SIZE + BLOB_CONTENT_SIZE + nBytes)
        ((mac ++ (be32 L ++ payload)).length) = (mac ++ (be32 L ++ payload)).length := by
      rw [hflen]
      omega
    rw [hmin, List.take_length, List.drop_replicate, hflen]
    have hcount : PLATFORM_HMAC_SIZE + BLOB_CONTENT_SIZE + nBytes -
        (PLATFORM_HMAC_SIZE + BLOB_CONTENT_SIZE + L) = nBytes - L := by omega
    rw [hcount]
    simp [List.append_assoc]
  unfold sdoBlobRead
  rw [if_neg h0, if_neg (by omega : ¬ R_MAX_SIZE < nBytes)]
  dsimp only
  rw [hrb]
  dsimp only
  have hdrop32 : List.drop PLATFORM_HMAC_SIZE
      (mac ++ (be32 L ++ (payload ++ List.replicate (nBytes - L) 0))) =
      be32 L ++ (payload ++ List.replicate (nBytes - L) 0) := List.drop_left' hmac
  rw [hdrop32, decodeBe32_be32_append L _ hL32, if_neg (by omega : ¬ nBytes < L)]
  have htake32 : List.take PLATFORM_HMAC_SIZE
      (mac ++ (be32 L ++ (payload ++ List.replicate (nBytes - L) 0))) = mac :=
    List.take_left' hmac
  have hdata : List.take L (List.drop (PLATFORM_HMAC_SIZE + BLOB_CONTENT_SIZE)
      (mac ++ (be32 L ++ (payload ++ List.replicate (nBytes - L) 0)))) = payload := by
    have hgrp : mac ++ (be32 L ++ (payload ++ List.replicate (nBytes - L) 0)) =
        (mac ++ be32 L) ++ (payload ++ List.replicate (nBytes - L) 0) := by
      simp [List.append_assoc]
    rw [hgrp, List.drop_left' (by simp only [List.length_append, hmac, be32_length]),
      List.take_left' hpay]
  rw [htake32, hdata]

theorem read_secure_eq (fs : List (Nat × List Nat)) (slot : SlotState) (name : Nat)
    (ivB tag ct buf : List Nat) (L nBytes : Nat)
    (hfile : fsGet fs name = some (ivB ++ (tag ++ (be32 L ++ ct))))
    (hiv : ivB.length = PLATFORM_IV_DEFAULT_LEN)
    (htag : tag.length = PLATFORM_GCM_TAG_SIZE) (hct : ct.length = L)
    (hL : L ≤ nBytes) (h0 : nBytes ≠ 0) (hmax : nBytes ≤ R_MAX_SIZE) :
    sdoBlobRead ⟨fs, slot⟩ name .secure buf nBytes =
      if tag = gcmTag platformAESKey ivB [] ct
      then readExit (Int.ofNat nBytes)
        (aesGcmDecBytes platformAESKey ivB ct ++ buf.drop L)
      else readExit (-1) buf := by
  have hL32 : L < 2 ^ 32 := by
    have : R_MAX_SIZE = 8192 := rfl
    omega
  have hflen : (ivB ++ (tag ++ (be32 L ++ ct))).length =
      PLATFORM_IV_DEFAULT_LEN + PLATFORM_GCM_TAG_SIZE + BLOB_CONTENT_SIZE + L := by
    simp only [List.length_append, hiv, htag, hct, be32_length]
    omega
  have hrb : read_buffer_from_file fs name
      (List.replicate (PLATFORM_IV_DEFAULT_LEN + PLATFORM_GCM_TAG_SIZE +
        BLOB_CONTENT_SIZE + nBytes) 0)
      (PLATFORM_IV_DEFAULT_LEN + PLATFORM_GCM_TAG_SIZE + BLOB_CONTENT_SIZE + nBytes) =
      some (ivB ++ (tag ++ (be32 L ++ (ct ++ List.replicate (nBytes - L) 0)))) := by
    unfold read_buffer_from_file
    rw [hfile]
    dsimp only
    have hmin : min (PLATFORM_IV_DEFAULT_LEN + PLATFORM_GCM_TAG_SIZE +
        BLOB_CONTENT_SIZE + nBytes) ((ivB ++ (tag ++ (be32 L ++ ct))).length) =
        (ivB ++ (tag ++ (be32 L ++ ct))).length := by
      rw [hflen]
      omega
    rw [hmin, List.take_length, List.drop_replicate, hflen]
    have hcount : PLATFORM_IV_DEFAULT_LEN + PLATFORM_GCM_TAG_SIZE + BLOB_CONTENT_SIZE +
        nBytes - (PLATFORM_IV_DEFAULT_LEN + PLATFORM_GCM_TAG_SIZE + BLOB_CONTENT_SIZE +
        L) = nBytes - L := by omega
    rw [hcount]
    simp [List.append_assoc]
  unfold sdoBlobRead
  rw [if_neg h0, if_neg (by omega : ¬ R_MAX_SIZE < nBytes)]
  dsimp only
  rw [hrb]
  dsimp only
  have hdropLen : List.drop (PLATFORM_GCM_TAG_SIZE + PLATFORM_IV_DEFAULT_LEN)
      (ivB ++ (tag ++ (be32 L ++ (ct ++ List.replicate (nBytes - L) 0)))) =
      be32 L ++ (ct ++ List.replicate (nBytes - L) 0) := by
    have hgrp : ivB ++ (tag ++ (be32 L ++ (ct ++ List.replicate (nBytes - L) 0))) =
        (ivB ++ tag) ++ (be32 L ++ (ct ++ List.replicate (nBytes - L) 0)) := by
      simp [List.append_assoc]
    rw [hgrp]
    exact List.drop_left' (by simp only [List.length_append, hiv, htag]; omega)
  rw [hdropLen, decodeBe32_be32_append L _ hL32, if_neg (by omega : ¬ nBytes < L)]
  have htakeIv : List.take PLATFORM_IV_DEFAULT_LEN
      (ivB ++ (tag ++ (be32 L ++ (ct ++ List.replicate (nBytes - L) 0)))) = ivB :=
    List.take_left' hiv
  have htakeTag : List.take PLATFORM_GCM_TAG_SIZE (List.drop PLATFORM_IV_DEFAULT_LEN
      (ivB ++ (tag ++ (be32 L ++ (ct ++ List.replicate (nBytes - L) 0))))) = tag := by
    rw [List.drop_left' hiv, List.take_left' htag]
  have hdata : List.take L (List.drop (PLATFORM_IV_DEFAULT_LEN + PLATFORM_GCM_TAG_SIZE +
      BLOB_CONTENT_SIZE)
      (ivB ++ (tag ++ (be32 L ++ (ct ++ List.replicate (nBytes - L) 0))))) = ct := by
    have hgrp : ivB ++ (tag ++ (be32 L ++ (ct ++ List.replicate (nBytes - L) 0))) =
        ((ivB ++ tag) ++ be32 L) ++ (ct ++ List.replicate (nBytes - L) 0) := by
      simp [List.append_assoc]
    rw [hgrp, List.drop_left' (by simp only [List.length_append, hiv, htag, be32_length]),
      List.take_left' hct]
  rw [htakeIv, htakeTag, hdata]
  unfold sdoCryptoAESGcmDecrypt
  by_cases hcond : tag = gcmTag platformAESKey ivB [] ct
  · rw [if_pos hcond, if_pos hcond]
    dsimp only
    rw [hct]
  · rw [if_neg hcond, if_neg hcond]

/-- Claim C5: for every valid payload the on-disk frame is built exactly as
specified - raw/Plain: the payload bytes alone; normal/Authenticated:
`HMAC(32) ++ length(4, big-endian) ++ payload` with the MAC computed over the
payload only (it is the sole argument of `sdoComputeStorageHMAC`); Sealed:
`nonce(12) ++ tag(16) ++ length(4, big-endian) ++ ciphertext` with
`|ciphertext| = |payload|`, the length prefix equal to the payload length,
and the GCM tag computed with empty associated data (`[]`). -/
theorem c5_write_frame_layouts (st : SysState) (name : Nat) (buf : List Nat)
    (n rnd : Nat) (hlen : buf.length = n) :
    (0 ≤ (sdoBlobWrite st name .raw buf n rnd).retval →
      fsGet (sdoBlobWrite st name .raw buf n rnd).st.fs name = some buf) ∧
    (0 ≤ (sdoBlobWrite st name .normal buf n rnd).retval →
      fsGet (sdoBlobWrite st name .normal buf n rnd).st.fs name =
        some (sdoComputeStorageHMAC buf ++ be32 n ++ buf) ∧
      (sdoComputeStorageHMAC buf).length = PLATFORM_HMAC_SIZE) ∧
    (0 ≤ (sdoBlobWrite st name .secure buf n rnd).retval →
      ∃ ivN slot', getPlatformIV st.slot rnd n = (some ivN, slot') ∧
        fsGet (sdoBlobWrite st name .secure buf n rnd).st.fs name =
          some (be96 ivN ++
            gcmTag platformAESKey (be96 ivN) []
              (aesGcmEncBytes platformAESKey (be96 ivN) buf) ++
            be32 n ++ aesGcmEncBytes platformAESKey (be96 ivN) buf) ∧
        (aesGcmEncBytes platformAESKey (be96 ivN) buf).length = n ∧
        (be96 ivN).length = PLATFORM_IV_DEFAULT_LEN ∧
        (gcmTag platformAESKey (be96 ivN) []
          (aesGcmEncBytes platformAESKey (be96 ivN) buf)).length =
          PLATFORM_GCM_TAG_SIZE) := by
  have htake : buf.take n = buf := by
    rw [← hlen]
    exact List.take_length buf
  refine ⟨?_, ?_, ?_⟩
  · intro h
    obtain ⟨h0, hmax⟩ := write_success_bounds _ _ _ _ _ _ h
    rw [write_raw_eq st name buf n rnd h0 hmax]
    simp [writeExit, fsGet_fsSet, htake]
  · intro h
    obtain ⟨h0, hmax⟩ := write_success_bounds _ _ _ _ _ _ h
    rw [write_normal_eq st name buf n rnd h0 hmax]
    simp [writeExit, fsGet_fsSet, htake, sdoComputeStorageHMAC_length]
  · intro h
    obtain ⟨h0, hmax⟩ := write_success_bounds _ _ _ _ _ _ h
    rcases hiv : getPlatformIV st.slot rnd n with ⟨o, slot'⟩
    cases o with
    | none =>
        rw [write_secure_fail_eq st name buf n rnd slot' h0 hmax hiv] at h
        simp [writeExit] at h
    | some ivN =>
        refine ⟨ivN, slot', rfl, ?_⟩
        rw [write_secure_eq st name buf n rnd ivN slot' h0 hmax hiv]
        simp [writeExit, fsGet_fsSet, htake, aesGcmEncBytes_length, hlen,
          be96_length, gcmTag_length]

theorem c5_write_frame_layouts_witness :
    fsGet (sdoBlobWrite ⟨[], .unset⟩ 3 .normal [1, 2] 2 4).st.fs 3 =
      some (sdoComputeStorageHMAC [1, 2] ++ be32 2 ++ [1, 2]) ∧
    (sdoComputeStorageHMAC [1, 2]).length = PLATFORM_HMAC_SIZE :=
  (c5_write_frame_layouts ⟨[], .unset⟩ 3 [1, 2] 2 4 (by decide)).2.1 (by decide)

/-- Counterexample to claim C2 as stated: after `write("A", Plain, "hello")`
(which succeeds returning 5), reading the blob with a 16-byte buffer does
fill its first 5 bytes with "hello" but returns 16 - `retval = (int32_t)
nBytes` at line 301 - not 5 as the claim requires. -/
theorem c2_counterexample :
    (sdoBlobWrite ⟨[], .unset⟩ 1 .raw [104, 101, 108, 108, 111] 5 0).retval = 5 ∧
    (sdoBlobRead (sdoBlobWrite ⟨[], .unset⟩ 1 .raw [104, 101, 108, 108, 111] 5 0).st
      1 .raw (List.replicate 16 0) 16).buf.take 5 = [104, 101, 108, 108, 111] ∧
    (sdoBlobRead (sdoBlobWrite ⟨[], .unset⟩ 1 .raw [104, 101, 108, 108, 111] 5 0).st
      1 .raw (List.replicate 16 0) 16).retval = 16 ∧
    ¬ (sdoBlobRead (sdoBlobWrite ⟨[], .unset⟩ 1 .raw [104, 101, 108, 108, 111] 5 0).st
      1 .raw (List.replicate 16 0) 16).retval = 5 := by decide

/-- Claim C2, amended: a successful `write(name, mode, payload)` followed by
`read(name, mode, buf)` with requested length `m` at least `|payload|` (and
at most `R_MAX_SIZE`) fills `buf[..|payload|]` with the original payload in
every mode - but the value returned is `m`, the caller's requested length
(line 301), not `|payload|`. -/
theorem c2_roundtrip_amended (st : SysState) (name : Nat)
    (flags : sdoSdkBlobFlags) (buf bufR : List Nat) (n m rnd : Nat)
    (hlen : buf.length = n) (hbytes : ∀ b ∈ buf, b < 256)
    (hnm : n ≤ m) (hm : m ≤ R_MAX_SIZE)
    (hw : 0 ≤ (sdoBlobWrite st name flags buf n rnd).retval) :
    (sdoBlobRead (sdoBlobWrite st name flags buf n rnd).st name flags bufR m).retval
      = Int.ofNat m ∧
    (sdoBlobRead (sdoBlobWrite st name flags buf n rnd).st name flags bufR m).buf.take n
      = buf := by
  obtain ⟨h0, hmaxn⟩ := write_success_bounds _ _ _ _ _ _ hw
  have hm0 : m ≠ 0 := by omega
  have htake : buf.take n = buf := by
    rw [← hlen]
    exact List.take_length buf
  cases flags with
  | raw =>
      rw [write_raw_eq st name buf n rnd h0 hmaxn, htake]
      dsimp only [writeExit]
      rw [read_raw_eq (fsSet st.fs name buf) st.slot name buf bufR m
        (fsGet_fsSet st.fs name buf) hm0 hm]
      have hmin : min m buf.length = n := by
        rw [hlen]
        omega
      rw [hmin, htake, readExit]
      exact ⟨rfl, List.take_left' hlen⟩
  | normal =>
      rw [write_normal_eq st name buf n rnd h0 hmaxn, htake]
      dsimp only [writeExit]
      have hfile : fsGet (fsSet st.fs name
          (sdoComputeStorageHMAC buf ++ be32 n ++ buf)) name =
          some (sdoComputeStorageHMAC buf ++ (be32 n ++ buf)) := by
        rw [fsGet_fsSet]
        simp [List.append_assoc]
      rw [read_normal_eq (fsSet st.fs name (sdoComputeStorageHMAC buf ++ be32 n ++ buf))
        st.slot name (sdoComputeStorageHMAC buf) buf bufR n m hfile
        (sdoComputeStorageHMAC_length buf) hlen hnm hm0 hm]
      rw [if_pos rfl, readExit]
      exact ⟨rfl, List.take_left' hlen⟩
  | secure =>
      rcases hiv : getPlatformIV st.slot rnd n with ⟨o, slot'⟩
      cases o with
      | none =>
          rw [write_secure_fail_eq st name buf n rnd slot' h0 hmaxn hiv] at hw
          simp [writeExit] at hw
      | some ivN =>
          rw [write_secure_eq st name buf n rnd ivN slot' h0 hmaxn hiv, htake]
          dsimp only [writeExit]
          have hfile : fsGet (fsSet st.fs name
              (be96 ivN ++
               gcmTag platformAESKey (be96 ivN) []
                 (aesGcmEncBytes platformAESKey (be96 ivN) buf) ++
               be32 n ++ aesGcmEncBytes platformAESKey (be96 ivN) buf)) name =
              some (be96 ivN ++
                (gcmTag platformAESKey (be96 ivN) []
                  (aesGcmEncBytes platformAESKey (be96 ivN) buf) ++
                 (be32 n ++ aesGcmEncBytes platformAESKey (be96 ivN) buf))) := by
            rw [fsGet_fsSet]
            simp [List.append_assoc]
          have hctlen : (aesGcmEncBytes platformAESKey (be96 ivN) buf).length = n := by
            rw [aesGcmEncBytes_length, hlen]
          rw [read_secure_eq (fsSet st.fs name _) slot' name (be96 ivN)
            (gcmTag platformAESKey (be96 ivN) []
              (aesGcmEncBytes platformAESKey (be96 ivN) buf))
            (aesGcmEncBytes platformAESKey (be96 ivN) buf) bufR n m hfile
            (be96_length ivN) (gcmTag_length _ _ _ _) hctlen hnm hm0 hm]
          rw [if_pos rfl, readExit]
          rw [aesGcmDec_enc platformAESKey (be96 ivN) buf hbytes]
          exact ⟨rfl, List.take_left' hlen⟩

theorem c2_roundtrip_amended_witness :
    (sdoBlobRead (sdoBlobWrite ⟨[], .unset⟩ 3 .secure [1, 2, 3] 3 5).st 3 .secure
      (List.replicate 10 9) 10).retval = Int.ofNat 10 ∧
    (sdoBlobRead (sdoBlobWrite ⟨[], .unset⟩ 3 .secure [1, 2, 3] 3 5).st 3 .secure
      (List.replicate 10 9) 10).buf.take 3 = [1, 2, 3] :=
  c2_roundtrip_amended ⟨[], .unset⟩ 3 .secure [1, 2, 3] (List.replicate 10 9) 3 10 5
    (by decide) (by decide) (by decide) (by decide) (by decide)

theorem read_normal_reject (fs : List (Nat × List Nat)) (slot : SlotState)
    (name : Nat) (mac payload buf : List Nat) (L nBytes : Nat)
    (hfile : fsGet fs name = some (mac ++ (be32 L ++ payload)))
    (hmac : mac.length = PLATFORM_HMAC_SIZE) (hpay : payload.length = L)
    (hL32 : L < 2 ^ 32) (hlt : nBytes < L) :
    (sdoBlobRead ⟨fs, slot⟩ name .normal buf nBytes).retval = -1 := by
  by_cases h0 : nBytes = 0
  · unfold sdoBlobRead
    rw [if_pos h0]
    rfl
  by_cases hRM : R_MAX_SIZE < nBytes
  · unfold sdoBlobRead
    rw [if_neg h0, if_pos hRM]
    rfl
  have hflen : (mac ++ (be32 L ++ payload)).length =
      PLATFORM_HMAC_SIZE + BLOB_CONTENT_SIZE + L := by
    simp only [List.length_append, hmac, hpay, be32_length]
    omega
  have hrb : read_buffer_from_file fs name
      (List.replicate (PLATFORM_HMAC_SIZE + BLOB_CONTENT_SIZE + nBytes) 0)
      (PLATFORM_HMAC_SIZE + BLOB_CONTENT_SIZE + nBytes) =
      some ((mac ++ (be32 L ++ payload)).take
        (PLATFORM_HMAC_SIZE + BLOB_CONTENT_SIZE + nBytes)) := by
    unfold read_buffer_from_file
    rw [hfile]
    dsimp only
    have hmin : min (PLATFORM_HMAC_SIZE + BLOB_CONTENT_SIZE + nBytes)
        ((mac ++ (be32 L ++ payload)).length) =
        PLATFORM_HMAC_SIZE + BLOB_CONTENT_SIZE + nBytes := by
      rw [hflen]
      omega
    rw [hmin, List.drop_replicate]
    have hz : PLATFORM_HMAC_SIZE + BLOB_CONTENT_SIZE + nBytes -
        (PLATFORM_HMAC_SIZE + BLOB_CONTENT_SIZE + nBytes) = 0 := by omega
    rw [hz, List.replicate_zero, List.append_nil]
  unfold sdoBlobRead
  rw [if_neg h0, if_neg hRM]
  dsimp only
  rw [hrb]
  dsimp only
  have hdrop : List.drop PLATFORM_HMAC_SIZE ((mac ++ (be32 L ++ payload)).take
      (PLATFORM_HMAC_SIZE + BLOB_CONTENT_SIZE + nBytes)) =
      be32 L ++ payload.take (BLOB_CONTENT_SIZE + nBytes - (be32 L).length) := by
    rw [List.drop_take, List.drop_left' hmac]
    have harith : PLATFORM_HMAC_SIZE + BLOB_CONTENT_SIZE + nBytes - PLATFORM_HMAC_SIZE =
        BLOB_CONTENT_SIZE + nBytes := by omega
    rw [harith, List.take_append_eq_append_take,
      List.take_of_length_le (by rw [be32_length]; omega : (be32 L).length ≤
        BLOB_CONTENT_SIZE + nBytes)]
  rw [hdrop, decodeBe32_be32_append L _ hL32, if_pos hlt]
  rfl

theorem read_secure_reject (fs : List (Nat × List Nat)) (slot : SlotState)
    (name : Nat) (ivB tag ct buf : List Nat) (L nBytes : Nat)
    (hfile : fsGet fs name = some (ivB ++ (tag ++ (be32 L ++ ct))))
    (hiv : ivB.length = PLATFORM_IV_DEFAULT_LEN)
    (htag : tag.length = PLATFORM_GCM_TAG_SIZE)
    (hct : ct.length = L) (hL32 : L < 2 ^ 32) (hlt : nBytes < L) :
    (sdoBlobRead ⟨fs, slot⟩ name .secure buf nBytes).retval = -1 := by
  by_cases h0 : nBytes = 0
  · unfold sdoBlobRead
    rw [if_pos h0]
    rfl
  by_cases hRM : R_MAX_SIZE < nBytes
  · unfold sdoBlobRead
    rw [if_neg h0, if_pos hRM]
    rfl
  have hflen : (ivB ++ (tag ++ (be32 L ++ ct))).length =
      PLATFORM_IV_DEFAULT_LEN + PLATFORM_GCM_TAG_SIZE + BLOB_CONTENT_SIZE + L := by
    simp only [List.length_append, hiv, htag, hct, be32_length]
    omega
  have hrb : read_buffer_from_file fs name
      (List.replicate (PLATFORM_IV_DEFAULT_LEN + PLATFORM_GCM_TAG_SIZE +
        BLOB_CONTENT_SIZE + nBytes) 0)
      (PLATFORM_IV_DEFAULT_LEN + PLATFORM_GCM_TAG_SIZE + BLOB_CONTENT_SIZE + nBytes) =
      some ((ivB ++ (tag ++ (be32 L ++ ct))).take
        (PLATFORM_IV_DEFAULT_LEN + PLATFORM_GCM_TAG_SIZE + BLOB_CONTENT_SIZE +
          nBytes)) := by
    unfold read_buffer_from_file
    rw [hfile]
    dsimp only
    have hmin : min (PLATFORM_IV_DEFAULT_LEN + PLATFORM_GCM_TAG_SIZE +
        BLOB_CONTENT_SIZE + nBytes) ((ivB ++ (tag ++ (be32 L ++ ct))).length) =
        PLATFORM_IV_DEFAULT_LEN + PLATFORM_GCM_TAG_SIZE + BLOB_CONTENT_SIZE +
          nBytes := by
      rw [hflen]
      omega
    rw [hmin, List.drop_replicate]
    have hz : PLATFORM_IV_DEFAULT_LEN + PLATFORM_GCM_TAG_SIZE + BLOB_CONTENT_SIZE +
        nBytes - (PLATFORM_IV_DEFAULT_LEN + PLATFORM_GCM_TAG_SIZE +
        BLOB_CONTENT_SIZE + nBytes) = 0 := by omega
    rw [hz, List.replicate_zero, List.append_nil]
  unfold sdoBlobRead
  rw [if_neg h0, if_neg hRM]
  dsimp only
  rw [hrb]
  dsimp only
  have hdrop : List.drop (PLATFORM_GCM_TAG_SIZE + PLATFORM_IV_DEFAULT_LEN)
      ((ivB ++ (tag ++ (be32 L ++ ct))).take
        (PLATFORM_IV_DEFAULT_LEN + PLATFORM_GCM_TAG_SIZE + BLOB_CONTENT_SIZE +
          nBytes)) =
      be32 L ++ ct.take (BLOB_CONTENT_SIZE + nBytes - (be32 L).length) := by
    rw [List.drop_take]
    have hgrp : ivB ++ (tag ++ (be32 L ++ ct)) = (ivB ++ tag) ++ (be32 L ++ ct) := by
      simp [List.append_assoc]
    rw [hgrp, List.drop_left' (by simp only [List.length_append, hiv, htag]; omega)]
    have harith : PLATFORM_IV_DEFAULT_LEN + PLATFORM_GCM_TAG_SIZE +
        BLOB_CONTENT_SIZE + nBytes - (PLATFORM_GCM_TAG_SIZE +
        PLATFORM_IV_DEFAULT_LEN) = BLOB_CONTENT_SIZE + nBytes := by omega
    rw [harith, List.take_append_eq_append_take,
      List.take_of_length_le (by rw [be32_length]; omega : (be32 L).length ≤
        BLOB_CONTENT_SIZE + nBytes)]
  rw [hdrop, decodeBe32_be32_append L _ hL32, if_pos hlt]
  rfl

/-- Counterexample to claim C3 as stated: a Plain blob storing 10 bytes read
with a 5-byte buffer is NOT rejected - it succeeds and returns 5 (the
caller's buffer length), although the stored payload is 10 bytes long.
Neither "reject if `out_buf.len < declared_payload_len`" nor "return the
declared payload length" holds on the Plain path. -/
theorem c3_counterexample :
    fsGet [(7, List.replicate 10 3)] 7 = some (List.replicate 10 3) ∧
    (List.replicate 10 (3 : Nat)).length = 10 ∧
    (5 : Nat) < 10 ∧
    (sdoBlobRead ⟨[(7, List.replicate 10 3)], .unset⟩ 7 .raw
      (List.replicate 5 0) 5).retval = 5 ∧
    ¬ (sdoBlobRead ⟨[(7, List.replicate 10 3)], .unset⟩ 7 .raw
      (List.replicate 5 0) 5).retval = -1 ∧
    ¬ (sdoBlobRead ⟨[(7, List.replicate 10 3)], .unset⟩ 7 .raw
      (List.replicate 5 0) 5).retval = 10 := by decide

/-- Claim C3, amended: every read returns either `-1` or the caller's
requested length `nBytes` (line 301) - never any other value; in the
Authenticated and Sealed modes a read whose requested length is smaller than
the declared payload length recorded in the frame is rejected with `-1`
(lines 181-188 and 252-259).  On a successful Authenticated or Sealed read
the returned value `nBytes` is at least the declared length, but it is the
caller's requested length, not the declared length itself; the Plain path
performs no payload-length check at all. -/
theorem c3_read_return_value_amended :
    (∀ (st : SysState) (name : Nat) (flags : sdoSdkBlobFlags) (buf : List Nat)
      (nBytes : Nat),
      (sdoBlobRead st name flags buf nBytes).retval = -1 ∨
      (sdoBlobRead st name flags buf nBytes).retval = Int.ofNat nBytes) ∧
    (∀ (fs : List (Nat × List Nat)) (slot : SlotState) (name : Nat)
      (mac payload buf : List Nat) (L nBytes : Nat),
      fsGet fs name = some (mac ++ (be32 L ++ payload)) →
      mac.length = PLATFORM_HMAC_SIZE → payload.length = L → L < 2 ^ 32 →
      nBytes < L →
      (sdoBlobRead ⟨fs, slot⟩ name .normal buf nBytes).retval = -1) ∧
    (∀ (fs : List (Nat × List Nat)) (slot : SlotState) (name : Nat)
      (ivB tag ct buf : List Nat) (L nBytes : Nat),
      fsGet fs name = some (ivB ++ (tag ++ (be32 L ++ ct))) →
      ivB.length = PLATFORM_IV_DEFAULT_LEN → tag.length = PLATFORM_GCM_TAG_SIZE →
      ct.length = L → L < 2 ^ 32 → nBytes < L →
      (sdoBlobRead ⟨fs, slot⟩ name .secure buf nBytes).retval = -1) := by
  refine ⟨?_, ?_, ?_⟩
  · intro st name flags buf nBytes
    unfold sdoBlobRead
    repeat' first
      | (left; rfl)
      | (right; rfl)
      | split
      | dsimp only
  · intro fs slot name mac payload buf L nBytes hfile hmac hpay hL32 hlt
    exact read_normal_reject fs slot name mac payload buf L nBytes hfile hmac hpay
      hL32 hlt
  · intro fs slot name ivB tag ct buf L nBytes hfile hiv htag hct hL32 hlt
    exact read_secure_reject fs slot name ivB tag ct buf L nBytes hfile hiv htag hct
      hL32 hlt

theorem c3_read_return_value_amended_witness :
    ((sdoBlobRead ⟨[], .unset⟩ 1 .raw [0] 1).retval = -1 ∨
     (sdoBlobRead ⟨[], .unset⟩ 1 .raw [0] 1).retval = Int.ofNat 1) ∧
    (sdoBlobRead ⟨[(9, List.replicate 32 0 ++ (be32 3 ++ [1, 2, 3]))], .unset⟩ 9
      .normal [0, 0] 2).retval = -1 ∧
    (sdoBlobRead ⟨[(9, be96 0 ++ (List.replicate 16 0 ++ (be32 3 ++ [1, 2, 3])))],
      .unset⟩ 9 .secure [0, 0] 2).retval = -1 :=
  ⟨c3_read_return_value_amended.1 ⟨[], .unset⟩ 1 .raw [0] 1,
   c3_read_return_value_amended.2.1 [(9, List.replicate 32 0 ++ (be32 3 ++ [1, 2, 3]))]
     .unset 9 (List.replicate 32 0) [1, 2, 3] [0, 0] 3 2 (by decide) (by decide)
     (by decide) (by decide) (by decide),
   c3_read_return_value_amended.2.2 [(9, be96 0 ++ (List.replicate 16 0 ++
     (be32 3 ++ [1, 2, 3])))] .unset 9 (be96 0) (List.replicate 16 0) [1, 2, 3]
     [0, 0] 3 2 (by decide) (by decide) (by decide) (by decide) (by decide)
     (by decide)⟩

/-- Counterexample to claim C4 as stated: an Authenticated blob whose stored
MAC does not match the payload's MAC is rejected with `-1`, but the caller's
buffer is NOT zeroized - the `goto exit` at the HMAC-compare failure
(lines 209-213) leaves `buf` exactly as the caller provided it. -/
theorem c4_counterexample :
    ¬ List.replicate 32 0 = sdoComputeStorageHMAC [5] ∧
    (sdoBlobRead ⟨[(2, List.replicate 32 0 ++ (be32 1 ++ [5]))], .unset⟩ 2 .normal
      [9, 9, 9] 3).retval = -1 ∧
    (sdoBlobRead ⟨[(2, List.replicate 32 0 ++ (be32 1 ++ [5]))], .unset⟩ 2 .normal
      [9, 9, 9] 3).buf = [9, 9, 9] ∧
    ¬ (sdoBlobRead ⟨[(2, List.replicate 32 0 ++ (be32 1 ++ [5]))], .unset⟩ 2 .normal
      [9, 9, 9] 3).buf = List.replicate 3 0 := by decide

/-- Claim C4, amended: on a MAC-comparison failure (Authenticated) or a GCM
tag-verification failure (Sealed) the read returns `-1` and delivers no
plaintext bytes: the caller's buffer is returned exactly as it was - left
untouched, not zeroized. -/
theorem c4_auth_failure_buffer_untouched :
    (∀ (fs : List (Nat × List Nat)) (slot : SlotState) (name : Nat)
      (mac payload buf : List Nat) (L nBytes : Nat),
      fsGet fs name = some (mac ++ (be32 L ++ payload)) →
      mac.length = PLATFORM_HMAC_SIZE → payload.length = L →
      L ≤ nBytes → nBytes ≠ 0 → nBytes ≤ R_MAX_SIZE →
      mac ≠ sdoComputeStorageHMAC payload →
      (sdoBlobRead ⟨fs, slot⟩ name .normal buf nBytes).retval = -1 ∧
      (sdoBlobRead ⟨fs, slot⟩ name .normal buf nBytes).buf = buf) ∧
    (∀ (fs : List (Nat × List Nat)) (slot : SlotState) (name : Nat)
      (ivB tag ct buf : List Nat) (L nBytes : Nat),
      fsGet fs name = some (ivB ++ (tag ++ (be32 L ++ ct))) →
      ivB.length = PLATFORM_IV_DEFAULT_LEN → tag.length = PLATFORM_GCM_TAG_SIZE →
      ct.length = L → L ≤ nBytes → nBytes ≠ 0 → nBytes ≤ R_MAX_SIZE →
      tag ≠ gcmTag platformAESKey ivB [] ct →
      (sdoBlobRead ⟨fs, slot⟩ name .secure buf nBytes).retval = -1 ∧
      (sdoBlobRead ⟨fs, slot⟩ name .secure buf nBytes).buf = buf) := by
  constructor
  · intro fs slot name mac payload buf L nBytes hfile hmac hpay hL h0 hmax hne
    rw [read_normal_eq fs slot name mac payload buf L nBytes hfile hmac hpay hL h0
      hmax, if_neg hne]
    exact ⟨rfl, rfl⟩
  · intro fs slot name ivB tag ct buf L nBytes hfile hiv htag hct hL h0 hmax hne
    rw [read_secure_eq fs slot name ivB tag ct buf L nBytes hfile hiv htag hct hL h0
      hmax, if_neg hne]
    exact ⟨rfl, rfl⟩

theorem c4_auth_failure_buffer_untouched_witness :
    ((sdoBlobRead ⟨[(2, List.replicate 32 0 ++ (be32 1 ++ [5]))], .unset⟩ 2 .normal
      [9, 9, 9] 3).retval = -1 ∧
     (sdoBlobRead ⟨[(2, List.replicate 32 0 ++ (be32 1 ++ [5]))], .unset⟩ 2 .normal
      [9, 9, 9] 3).buf = [9, 9, 9]) ∧
    ((sdoBlobRead ⟨[(4, be96 1 ++ (List.replicate 16 0 ++ (be32 1 ++ [5])))],
      .unset⟩ 4 .secure [9, 9] 2).retval = -1 ∧
     (sdoBlobRead ⟨[(4, be96 1 ++ (List.replicate 16 0 ++ (be32 1 ++ [5])))],
      .unset⟩ 4 .secure [9, 9] 2).buf = [9, 9]) :=
  ⟨c4_auth_failure_buffer_untouched.1 [(2, List.replicate 32 0 ++ (be32 1 ++ [5]))]
     .unset 2 (List.replicate 32 0) [5] [9, 9, 9] 1 3 (by decide) (by decide)
     (by decide) (by decide) (by decide) (by decide) (by decide),
   c4_auth_failure_buffer_untouched.2 [(4, be96 1 ++ (List.replicate 16 0 ++
     (be32 1 ++ [5])))] .unset 4 (be96 1) (List.replicate 16 0) [5] [9, 9] 1 2
     (by decide) (by decide) (by decide) (by decide) (by decide) (by decide)
     (by decide) (by decide)⟩

/-- Claim C8: once the nonce slot is exhausted, every sealed write fails
(returns `-1`, writes no frame) and the slot stays exhausted; reads are
completely independent of the nonce slot - the read path takes the nonce
from the frame itself and never consults or advances the slot - and a
well-formed sealed blob still reads back successfully with the slot
exhausted.  The nonce-manager behaviour is modelled from the spec (§4.2:
`Exhausted` is terminal; "Reads are unaffected"). -/
theorem c8_rollover_fence :
    (∀ (fs : List (Nat × List Nat)) (name : Nat) (buf : List Nat) (n rnd : Nat),
      (sdoBlobWrite ⟨fs, .exhausted⟩ name .secure buf n rnd).retval = -1 ∧
      (sdoBlobWrite ⟨fs, .exhausted⟩ name .secure buf n rnd).st.slot = .exhausted ∧
      (sdoBlobWrite ⟨fs, .exhausted⟩ name .secure buf n rnd).st.fs = fs) ∧
    (∀ (fs : List (Nat × List Nat)) (s1 s2 : SlotState) (name : Nat)
      (flags : sdoSdkBlobFlags) (buf : List Nat) (n : Nat),
      sdoBlobRead ⟨fs, s1⟩ name flags buf n = sdoBlobRead ⟨fs, s2⟩ name flags buf n) ∧
    (∀ (fs : List (Nat × List Nat)) (name : Nat) (ivB tag ct buf : List Nat)
      (L n : Nat),
      fsGet fs name = some (ivB ++ (tag ++ (be32 L ++ ct))) →
      ivB.length = PLATFORM_IV_DEFAULT_LEN → tag.length = PLATFORM_GCM_TAG_SIZE →
      ct.length = L → L ≤ n → n ≠ 0 → n ≤ R_MAX_SIZE →
      tag = gcmTag platformAESKey ivB [] ct →
      (sdoBlobRead ⟨fs, .exhausted⟩ name .secure buf n).retval = Int.ofNat n) := by
  refine ⟨?_, ?_, ?_⟩
  · intro fs name buf n rnd
    by_cases h0 : n = 0
    · unfold sdoBlobWrite
      rw [if_pos h0]
      exact ⟨rfl, rfl, rfl⟩
    by_cases hmax : R_MAX_SIZE < n
    · unfold sdoBlobWrite
      rw [if_neg h0, if_pos hmax]
      exact ⟨rfl, rfl, rfl⟩
    rw [write_secure_fail_eq ⟨fs, .exhausted⟩ name buf n rnd .exhausted h0
      (by omega) rfl]
    exact ⟨rfl, rfl, rfl⟩
  · intro fs s1 s2 name flags buf n
    rfl
  · intro fs name ivB tag ct buf L n hfile hiv htag hct hL h0 hmax htagok
    rw [read_secure_eq fs .exhausted name ivB tag ct buf L n hfile hiv htag hct hL
      h0 hmax, if_pos htagok]
    rfl

theorem c8_rollover_fence_witness :
    ((sdoBlobWrite ⟨[], .exhausted⟩ 1 .secure [1] 1 0).retval = -1 ∧
     (sdoBlobWrite ⟨[], .exhausted⟩ 1 .secure [1] 1 0).st.slot = .exhausted ∧
     (sdoBlobWrite ⟨[], .exhausted⟩ 1 .secure [1] 1 0).st.fs = []) ∧
    (sdoBlobRead ⟨[(5, be96 2 ++ (gcmTag platformAESKey (be96 2) [] [20] ++
      (be32 1 ++ [20])))], .exhausted⟩ 5 .secure [0] 1).retval = Int.ofNat 1 :=
  ⟨c8_rollover_fence.1 [] 1 [1] 1 0,
   c8_rollover_fence.2.2 [(5, be96 2 ++ (gcmTag platformAESKey (be96 2) [] [20] ++
     (be32 1 ++ [20])))] 5 (be96 2) (gcmTag platformAESKey (be96 2) [] [20]) [20]
     [0] 1 1 (by decide) (by decide) (by decide) (by decide) (by decide) (by decide)
     (by decide) rfl⟩

/-- Counterexample to claim C6 as stated: for a Normal-mode file of
`2^32 + 46` bytes the computed payload length is `2^32 + 10`, far above
`MAX_BLOB_BYTES`, yet `sdoBlobSize` returns `10` - a non-error value - because
the `(int32_t)` cast at line 82 truncates the 64-bit `size_t` difference
before the `retval > R_MAX_SIZE` guard runs. -/
theorem c6_counterexample :
    R_MAX_SIZE < 2 ^ 32 + 46 - sizeOverhead .normal ∧
    sdoBlobSize ⟨[(4, List.replicate (2 ^ 32 + 46) 0)], .unset⟩ 4 .normal = 10 ∧
    ¬ sdoBlobSize ⟨[(4, List.replicate (2 ^ 32 + 46) 0)], .unset⟩ 4 .normal = -1 ∧
    ¬ sdoBlobSize ⟨[(4, List.replicate (2 ^ 32 + 46) 0)], .unset⟩ 4 .normal < 0 := by
  have hfs : fsGet [(4, List.replicate (2 ^ 32 + 46) 0)] 4 =
      some (List.replicate (2 ^ 32 + 46) 0) := by
    unfold fsGet
    rw [if_pos rfl]
  have hex : file_exists [(4, List.replicate (2 ^ 32 + 46) 0)] 4 = true := by
    unfold file_exists
    rw [hfs]
    rfl
  have hsize : get_file_size [(4, List.replicate (2 ^ 32 + 46) 0)] 4 =
      2 ^ 32 + 46 := by
    unfold get_file_size
    rw [hfs]
    exact List.length_replicate _ _
  have h : sdoBlobSize ⟨[(4, List.replicate (2 ^ 32 + 46) 0)], .unset⟩ 4 .normal
      = 10 := by
    unfold sdoBlobSize
    rw [hex, if_neg (by decide : ¬ (true = false)), hsize]
    have hov : sizeOverhead sdoSdkBlobFlags.normal = 36 := by decide
    rw [hov]
    have hx : (2 ^ 32 + 46 + 2 ^ 64 - 36) % 2 ^ 64 = 2 ^ 32 + 10 := by norm_num
    rw [hx]
    unfold toInt32
    rw [if_pos (by norm_num : (2 ^ 32 + 10 : Nat) % 2 ^ 32 < 2 ^ 31)]
    have hmod : (2 ^ 32 + 10 : Nat) % 2 ^ 32 = 10 := by norm_num
    rw [hmod]
    rw [if_neg (by norm_num [R_MAX_SIZE] : ¬ ((R_MAX_SIZE : Int) < Int.ofNat 10))]
    rfl
  refine ⟨?_, h, ?_, ?_⟩
  · have hov : sizeOverhead sdoSdkBlobFlags.normal = 36 := by decide
    rw [hov]
    norm_num [R_MAX_SIZE]
  · rw [h]
    decide
  · rw [h]
    decide

/-- Claim C6, amended: `sdoBlobSize` returns `0` when the file does not
exist; on an existing file it returns the payload length (file size minus
the mode's fixed overhead) when that length is within `R_MAX_SIZE`; a file
shorter than the fixed overhead (corrupt length) yields a negative
error value; and a payload length above `R_MAX_SIZE` is reported as `-1` -
provided the `size_t` difference fits in 32 bits (`< 2^31`); for larger
files the `(int32_t)` cast wraps and a non-error value can escape. -/
theorem c6_size_amended (st : SysState) (name : Nat) (flags : sdoSdkBlobFlags) :
    (fsGet st.fs name = none → sdoBlobSize st name flags = 0) ∧
    (∀ content : List Nat, fsGet st.fs name = some content →
      ((sizeOverhead flags ≤ content.length →
        content.length - sizeOverhead flags ≤ R_MAX_SIZE →
        sdoBlobSize st name flags = Int.ofNat (content.length - sizeOverhead flags)) ∧
       (content.length < sizeOverhead flags → sdoBlobSize st name flags < 0) ∧
       (R_MAX_SIZE < content.length - sizeOverhead flags →
        content.length - sizeOverhead flags < 2 ^ 31 →
        sdoBlobSize st name flags = -1))) := by
  have hRM : R_MAX_SIZE = 8192 := rfl
  have hov : sizeOverhead flags ≤ 36 := by
    cases flags <;> decide
  constructor
  · intro habs
    unfold sdoBlobSize file_exists
    rw [habs]
    rfl
  · intro content hcont
    have hex : file_exists st.fs name = true := by
      unfold file_exists
      rw [hcont]
      rfl
    have hsize : get_file_size st.fs name = content.length := by
      unfold get_file_size
      rw [hcont]
      rfl
    refine ⟨?_, ?_, ?_⟩
    · intro h1 h2
      unfold sdoBlobSize
      rw [hex, if_neg (by decide : ¬ (true = false)), hsize]
      have hx : (content.length + 2 ^ 64 - sizeOverhead flags) % 2 ^ 64 =
          content.length - sizeOverhead flags := by omega
      rw [hx]
      unfold toInt32
      rw [if_pos (by omega : (content.length - sizeOverhead flags) % 2 ^ 32 < 2 ^ 31)]
      have hmod : (content.length - sizeOverhead flags) % 2 ^ 32 =
          content.length - sizeOverhead flags := by omega
      rw [hmod]
      rw [if_neg (by simp only [Int.ofNat_eq_natCast]; omega :
        ¬ ((R_MAX_SIZE : Int) < Int.ofNat (content.length - sizeOverhead flags)))]
    · intro h1
      unfold sdoBlobSize
      rw [hex, if_neg (by decide : ¬ (true = false)), hsize]
      have hx : (content.length + 2 ^ 64 - sizeOverhead flags) % 2 ^ 64 =
          content.length + 2 ^ 64 - sizeOverhead flags := by omega
      rw [hx]
      unfold toInt32
      rw [if_neg (by omega :
        ¬ (content.length + 2 ^ 64 - sizeOverhead flags) % 2 ^ 32 < 2 ^ 31)]
      rw [if_neg (by simp only [Int.ofNat_eq_natCast]; omega : ¬ ((R_MAX_SIZE : Int) <
        Int.ofNat ((content.length + 2 ^ 64 - sizeOverhead flags) % 2 ^ 32) -
          2 ^ 32))]
      simp only [Int.ofNat_eq_natCast]
      omega
    · intro h1 h2
      unfold sdoBlobSize
      rw [hex, if_neg (by decide : ¬ (true = false)), hsize]
      have hx : (content.length + 2 ^ 64 - sizeOverhead flags) % 2 ^ 64 =
          content.length - sizeOverhead flags := by omega
      rw [hx]
      unfold toInt32
      rw [if_pos (by omega : (content.length - sizeOverhead flags) % 2 ^ 32 < 2 ^ 31)]
      have hmod : (content.length - sizeOverhead flags) % 2 ^ 32 =
          content.length - sizeOverhead flags := by omega
      rw [hmod]
      rw [if_pos (by simp only [Int.ofNat_eq_natCast]; omega :
        (R_MAX_SIZE : Int) < Int.ofNat (content.length - sizeOverhead flags))]

theorem c6_size_amended_witness :
    sdoBlobSize ⟨[], .unset⟩ 1 .normal = 0 ∧
    sdoBlobSize ⟨[(1, List.replicate 46 0)], .unset⟩ 1 .normal =
      Int.ofNat ((List.replicate 46 (0 : Nat)).length - sizeOverhead .normal) ∧
    sdoBlobSize ⟨[(1, List.replicate 10 0)], .unset⟩ 1 .normal < 0 :=
  ⟨(c6_size_amended ⟨[], .unset⟩ 1 .normal).1 rfl,
   ((c6_size_amended ⟨[(1, List.replicate 46 0)], .unset⟩ 1 .normal).2
     (List.replicate 46 0) (by decide)).1 (by decide) (by decide),
   ((c6_size_amended ⟨[(1, List.replicate 10 0)], .unset⟩ 1 .normal).2
     (List.replicate 10 0) (by decide)).2.1 (by decide)⟩

set_option maxHeartbeats 1600000 in
theorem be96_inj (x y : Nat) (hx : x < 2 ^ 96) (hy : y < 2 ^ 96)
    (h : be96 x = be96 y) : x = y := by
  simp only [be96, List.cons.injEq, and_true] at h
  omega

theorem ivStep_bounds (n : Nat) : 1 ≤ ivStep n ∧ ivStep n ≤ 2 := by
  unfold ivStep
  split <;> simp

theorem runSealedNonces_active (lens : List Nat) :
    ∀ (rnd base counter : Nat) (ns : List Nat),
    base < 2 ^ 96 → counter < 2 ^ 96 →
    runSealedNonces (.active base counter) rnd lens = some ns →
    (∀ x ∈ ns, x < 2 ^ 96 ∧
      (counter + 2 ^ 96 - base % 2 ^ 96) % 2 ^ 96 <
        (x + 2 ^ 96 - base % 2 ^ 96) % 2 ^ 96) ∧
    ns.Nodup := by
  induction lens with
  | nil =>
      intro rnd base counter ns hb hc hrun
      unfold runSealedNonces at hrun
      injection hrun with h
      subst h
      exact ⟨fun x hx => (List.not_mem_nil x hx).elim, List.nodup_nil⟩
  | cons n rest ih =>
      intro rnd base counter ns hb hc hrun
      unfold runSealedNonces getPlatformIV at hrun
      dsimp only at hrun
      by_cases hro : 2 ^ 96 ≤ (counter + 2 ^ 96 - base % 2 ^ 96) % 2 ^ 96 + ivStep n
      · rw [if_pos hro] at hrun
        simp at hrun
      · rw [if_neg hro] at hrun
        dsimp only at hrun
        rcases hrest : runSealedNonces
            (.active base ((counter + ivStep n) % 2 ^ 96)) rnd rest with _ | ns'
        · rw [hrest] at hrun
          simp at hrun
        · rw [hrest] at hrun
          injection hrun with h
          subst h
          obtain ⟨hall, hnodup⟩ := ih rnd base ((counter + ivStep n) % 2 ^ 96) ns' hb
            (Nat.mod_lt _ (by norm_num)) hrest
          obtain ⟨hs1, hs2⟩ := ivStep_bounds n
          have hdisp : ((counter + ivStep n) % 2 ^ 96 + 2 ^ 96 - base % 2 ^ 96) %
              2 ^ 96 = (counter + 2 ^ 96 - base % 2 ^ 96) % 2 ^ 96 + ivStep n := by
            omega
          constructor
          · intro x hx
            rcases List.mem_cons.mp hx with rfl | hx'
            · exact ⟨Nat.mod_lt _ (by norm_num), by omega⟩
            · obtain ⟨hxlt, hxgt⟩ := hall x hx'
              exact ⟨hxlt, by omega⟩
          · refine List.nodup_cons.mpr ⟨?_, hnodup⟩
            intro hmem
            obtain ⟨hxlt, hxgt⟩ := hall _ hmem
            omega

/-- Claim C1: across any run of successful sealed writes over a device's
lifetime (starting from the empty nonce slot), the emitted 12-byte nonces -
the values stored as the first 12 bytes of each sealed frame - are pairwise
distinct: no nonce is ever reused with the sealing key.  The nonce manager
is modelled from the spec (§4.2): first use draws a base value into the
slot, later writes advance the 96-bit counter by the block step, and any
advance that would come back to or pass the base value fails instead of
emitting a nonce. -/
theorem c1_sealed_nonces_distinct (lens : List Nat) (rnd : Nat) (ns : List Nat)
    (h : runSealedNonces .unset rnd lens = some ns) :
    (ns.map be96).Nodup ∧ ns.Nodup := by
  cases lens with
  | nil =>
      unfold runSealedNonces at h
      injection h with h
      subst h
      exact ⟨List.nodup_nil, List.nodup_nil⟩
  | cons n rest =>
      unfold runSealedNonces getPlatformIV at h
      dsimp only at h
      rcases hrest : runSealedNonces
          (.active (rnd % 2 ^ 96) (rnd % 2 ^ 96)) rnd rest with _ | ns'
      · rw [hrest] at h
        simp at h
      · rw [hrest] at h
        injection h with h
        subst h
        obtain ⟨hall, hnodup⟩ := runSealedNonces_active rest rnd (rnd % 2 ^ 96)
          (rnd % 2 ^ 96) ns' (Nat.mod_lt _ (by norm_num))
          (Nat.mod_lt _ (by norm_num)) hrest
        have hnodup' : (rnd % 2 ^ 96 :: ns').Nodup := by
          refine List.nodup_cons.mpr ⟨?_, hnodup⟩
          intro hmem
          obtain ⟨hxlt, hxgt⟩ := hall _ hmem
          omega
        refine ⟨?_, hnodup'⟩
        refine hnodup'.map_on ?_
        intro x hx y hy hxy
        have hbx : x < 2 ^ 96 := by
          rcases List.mem_cons.mp hx with rfl | hx'
          · exact Nat.mod_lt _ (by norm_num)
          · exact (hall x hx').1
        have hby : y < 2 ^ 96 := by
          rcases List.mem_cons.mp hy with rfl | hy'
          · exact Nat.mod_lt _ (by norm_num)
          · exact (hall y hy').1
        exact be96_inj x y hbx hby hxy

theorem c1_sealed_nonces_distinct_witness :
    runSealedNonces .unset 0 [16, 32, 48] = some [0, 1, 2] ∧
    ((([0, 1, 2] : List Nat).map be96).Nodup ∧ ([0, 1, 2] : List Nat).Nodup) :=
  ⟨by decide, c1_sealed_nonces_distinct [16, 32, 48] 0 [0, 1, 2] (by decide)⟩

theorem c7_slot_persisted_before_frame_write_witness :
    0 ≤ (sdoBlobWrite ⟨[], .unset⟩ 2 .secure [1] 1 3).retval ∧
    (∃ i j, i < j ∧
      (sdoBlobWrite ⟨[], .unset⟩ 2 .secure [1] 1 3).events.get? i =
        some Ev.slotPersist ∧
      (sdoBlobWrite ⟨[], .unset⟩ 2 .secure [1] 1 3).events.get? j =
        some (Ev.frameWrite 2)) :=
  ⟨by decide, c7_slot_persisted_before_frame_write ⟨[], .unset⟩ 2 [1] 1 3 (by decide)⟩
